import Mathlib

/-!
# Verification of the `recma-jsx-rewrite` pass

A shallow embedding of `src/lib/plugin/recma-jsx-rewrite.js`: the estree
node shapes the pass consumes and produces, the `onenter`/`onleave`
callbacks, the `walk` traversal, and the root-level `transform` driver.
External collaborators (`isIdentifierName` from
`estree-util-is-identifier-name`, and the top-level-scope analysis done by
`periscopic`'s `analyze`) are passed in as parameters, exactly as the
source consumes them through imports.
-/

namespace Xdm

/-- JSX name nodes: `JSXIdentifier`, `JSXMemberExpression`,
`JSXNamespacedName` (estree-jsx shapes). -/
inductive JSXName where
  | jsxIdentifier (name : String)
  | jsxMemberExpression (object : JSXName) (property : JSXName)
  | jsxNamespacedName (ns : String) (name : String)
deriving Repr, DecidableEq

/-- The estree node shapes constructed or inspected by the pass.  A JSX
element carries its opening name, optional closing name, the
`data._xdmExplicitJsx` marker, its attribute expressions and its children.
`literalNum` covers the one numeric literal the pass builds
(`arguments[0]`). -/
inductive ENode where
  | identifier (name : String)
  | literal (value : String)
  | literalNum (value : Nat)
  | property (kind : String) (shorthand : Bool) (key : ENode) (value : ENode)
  | objectExpression (properties : List ENode)
  | objectPattern (properties : List ENode)
  | callExpression (callee : ENode) (arguments : List ENode)
  | memberExpression (object : ENode) (prop : ENode) (computed : Bool)
  | variableDeclarator (id : ENode) (init : ENode)
  | variableDeclaration (kind : String) (declarations : List ENode)
  | functionDeclaration (id : ENode) (params : List ENode) (body : ENode)
  | functionExpression (params : List ENode) (body : ENode)
  | arrowFunctionExpression (params : List ENode) (body : ENode)
  | blockStatement (body : List ENode)
  | returnStatement (argument : ENode)
  | throwStatement (argument : ENode)
  | newExpression (callee : ENode) (arguments : List ENode)
  | binaryExpression (op : String) (left : ENode) (right : ENode)
  | importSpecifier (imported : ENode) (localName : ENode)
  | importDeclaration (specifiers : List ENode) (source : ENode)
  | expressionStatement (expression : ENode)
  | jsxElement (openingName : JSXName) (closingName : Option JSXName)
      (explicitJsx : Bool) (attributes : List ENode) (children : List ENode)
  | program (body : List ENode)
deriving Repr

/-- One scope-stack frame: `{objects: [], components: [], tags: []}`
(insertion-ordered lists, as in the source, with membership guarded before
each push). -/
structure Scope where
  objects : List String
  components : List String
  tags : List String
deriving Repr, DecidableEq

/-- The traversal state of one `transform` invocation: the scope stack and
the two once-per-tree flags.  `stack` is kept with `stack[0]` (the
outermost open function) at the head; `push`/`pop` act on the tail end. -/
structure WalkState where
  stack : List Scope
  useMissingComponentHelper : Bool
  importProvider : Bool
deriving Repr, DecidableEq

/-- Models `/^[a-z]/.test(name)`: whether the first character is an ASCII
lowercase letter. -/
def startsWithLowercase (s : String) : Bool :=
  match s.data with
  | [] => false
  | c :: _ => 'a' ≤ c && c ≤ 'z'

/-- JS truthiness of an optional string option (absent and `''` are
falsy). -/
def strOptTruthy : Option String → Bool
  | some s => s ≠ ""
  | none => false

/-- Reads `.name` of an (identifier) node; used for `node.id.name`. -/
def enodeName : ENode → String
  | .identifier n => n
  | _ => ""

/-- The `while (name.type === 'JSXMemberExpression') name = name.object`
loop: the left-most node of a member chain. -/
def leftmostName : JSXName → JSXName
  | .jsxMemberExpression obj _ => leftmostName obj
  | n => n

/-- Reads `.name` of a JSX name node.  Only ever read off a `JSXIdentifier` in
the source (the left-most node of a well-formed member chain); the other
cases stand in for JS `undefined`. -/
def jsxNameDotName : JSXName → String
  | .jsxIdentifier n => n
  | _ => ""

/-- The `node.type === 'FunctionDeclaration' || … 'FunctionExpression' ||
… 'ArrowFunctionExpression'` test used by both callbacks. -/
def isFunctionNode : ENode → Bool
  | .functionDeclaration _ _ _ => true
  | .functionExpression _ _ => true
  | .arrowFunctionExpression _ _ => true
  | _ => false

/-- The `node.body.type !== 'BlockStatement'` test. -/
def isBlockStatement : ENode → Bool
  | .blockStatement _ => true
  | _ => false

/-- The `node.type === 'FunctionDeclaration' && node.id.name === 'MDXContent'` test. -/
def isMDXContentDecl : ENode → Bool
  | .functionDeclaration id _ _ => enodeName id == "MDXContent"
  | _ => false

/-- The `onenter` callback.  `isIdent` is the imported
`isIdentifierName`; `topScope` is `analyze(tree).scope.declarations`.
Functions push a fresh frame; a JSX element inside an open frame is
classified against `stack[0]` and, in the tag case, has its opening (and
closing, when present) name rewritten to `_components.<name>`. -/
def onenter (isIdent : String → Bool) (topScope : List String)
    (st : WalkState) (node : ENode) : WalkState × ENode :=
  let st1 :=
    if isFunctionNode node then
      { st with stack := st.stack ++ [⟨[], [], []⟩] }
    else st
  match node with
  | .jsxElement opening closing explicitJsx attrs children =>
    match st1.stack with
    | [] => (st1, node)
    | scope :: rest =>
      match opening with
      | .jsxMemberExpression obj propn =>
        -- `<x.y>`: find the left-most identifier, track it in `objects`.
        let lm := jsxNameDotName (leftmostName (.jsxMemberExpression obj propn))
        if !(scope.objects.contains lm) && !(topScope.contains lm) then
          ({ st1 with stack := ⟨scope.objects ++ [lm], scope.components, scope.tags⟩ :: rest },
           node)
        else (st1, node)
      | .jsxNamespacedName _ _ =>
        -- `<xml:thing>`: ignore namespaces.
        (st1, node)
      | .jsxIdentifier nm =>
        if isIdent nm && !(startsWithLowercase nm) then
          -- valid identifier not starting with a lowercase letter: component.
          if !(scope.components.contains nm) && !(topScope.contains nm) then
            { stack := ⟨scope.objects, scope.components ++ [nm], scope.tags⟩ :: rest,
              useMissingComponentHelper :=
                if nm ≠ "MDXLayout" then true else st1.useMissingComponentHelper,
              importProvider := st1.importProvider } |> fun st2 => (st2, node)
          else (st1, node)
        else if explicitJsx then
          -- do not turn explicit JSX into components from `_components`.
          (st1, node)
        else
          -- tag: track it and rewrite both names to `_components.<name>`.
          let scope' :=
            if scope.tags.contains nm then scope
            else ⟨scope.objects, scope.components, scope.tags ++ [nm]⟩
          ({ st1 with stack := scope' :: rest },
           .jsxElement
             (.jsxMemberExpression (.jsxIdentifier "_components") (.jsxIdentifier nm))
             (match closing with
              | some _ =>
                some (.jsxMemberExpression (.jsxIdentifier "_components") (.jsxIdentifier nm))
              | none => none)
             explicitJsx attrs children)
  | _ => (st1, node)

/-- The `defaults` property list built on leaving a function: one
`tagName: "tagName"` string-literal entry per tracked tag, then one
`componentName: _missingComponent("componentName")` entry per tracked
component other than `MDXLayout`. -/
def defaultsOf (scope : Scope) : List ENode :=
  scope.tags.map (fun name =>
    ENode.property "init" false (.identifier name) (.literal name))
  ++ (scope.components.filter (fun name => name ≠ "MDXLayout")).map (fun name =>
    ENode.property "init" false (.identifier name)
      (.callExpression (.identifier "_missingComponent") [.literal name]))

/-- The `actual` destructuring property list: one entry per tracked
component (`MDXLayout` is taken non-shorthand from the key `wrapper`, every
other name shorthand), then one shorthand entry per tracked object. -/
def actualOf (scope : Scope) : List ENode :=
  scope.components.map (fun name =>
    ENode.property "init" (name ≠ "MDXLayout")
      (.identifier (if name = "MDXLayout" then "wrapper" else name))
      (.identifier name))
  ++ scope.objects.map (fun name =>
    ENode.property "init" true (.identifier name) (.identifier name))

/-- The `parameters` list of initializer parts: the defaults object
literal, then (if a provider source is configured) `_provideComponents()`,
then (if the function is the `MDXContent` declaration)
`_props.components`. -/
def parametersFor (providerImportSource : Option String) (isMDXContent : Bool)
    (defaults : List ENode) : List ENode :=
  [ENode.objectExpression defaults]
  ++ (if strOptTruthy providerImportSource then
        [ENode.callExpression (.identifier "_provideComponents") []]
      else [])
  ++ (if isMDXContent then
        [ENode.memberExpression (.identifier "_props") (.identifier "components") false]
      else [])

/-- The `_components` initializer: `Object.assign(...parameters)` when
more than one part is present, otherwise `parameters[0]` itself.
(`parameters` is never empty in the source; the `headD` default covers
the unreachable case.) -/
def componentsInit (parameters : List ENode) : ENode :=
  if parameters.length > 1 then
    .callExpression
      (.memberExpression (.identifier "Object") (.identifier "assign") false)
      parameters
  else parameters.headD (.objectExpression [])

/-- Prepending the injected `const` declaration to a function body:
an arrow-shorthand expression body is first wrapped into a block with an
explicit return, then the declaration is unshifted onto the block. -/
def injectDeclarations (declarations : List ENode) (node : ENode) : ENode :=
  let setB := fun (body : ENode) =>
    let body :=
      if isBlockStatement body then body
      else ENode.blockStatement [ENode.returnStatement body]
    match body with
    | .blockStatement stmts =>
      ENode.blockStatement (ENode.variableDeclaration "const" declarations :: stmts)
    | b => b
  match node with
  | .functionDeclaration id params body => .functionDeclaration id params (setB body)
  | .functionExpression params body => .functionExpression params (setB body)
  | .arrowFunctionExpression params body => .arrowFunctionExpression params (setB body)
  | n => n

/-- The `onleave` callback.  Leaving a function pops the last frame; if it
yielded any defaults or destructuring entries, the `_components`
declaration (and, when `actual` is non-empty, the destructuring
declaration) is prepended to the function body, and the provider flag is
recorded when a provider source is configured. -/
def onleave (providerImportSource : Option String)
    (st : WalkState) (node : ENode) : WalkState × ENode :=
  if isFunctionNode node then
    match st.stack.getLast? with
    | none => ({ st with stack := [] }, node)
    | some scope =>
      let st := { st with stack := st.stack.dropLast }
      let defaults := defaultsOf scope
      let actual := actualOf scope
      if defaults.length > 0 || actual.length > 0 then
        let st :=
          if strOptTruthy providerImportSource then { st with importProvider := true }
          else st
        let parameters := parametersFor providerImportSource (isMDXContentDecl node) defaults
        let declarations :=
          [ENode.variableDeclarator (.identifier "_components") (componentsInit parameters)]
          ++ (if actual.length > 0 then
                [ENode.variableDeclarator (.objectPattern actual) (.identifier "_components")]
              else [])
        (st, injectDeclarations declarations node)
      else (st, node)
  else (st, node)

/-- Builds the prepended helper declaration
`function _missingComponent(name) { return function () { throw new Error(
'Component \x60' + name + '\x60 was not imported, exported, or given') } }`
declaration, node for node. -/
def createMissingComponentHelper : ENode :=
  .functionDeclaration (.identifier "_missingComponent") [.identifier "name"]
    (.blockStatement
      [.returnStatement
        (.functionExpression []
          (.blockStatement
            [.throwStatement
              (.newExpression (.identifier "Error")
                [.binaryExpression "+"
                  (.binaryExpression "+"
                    (.literal "Component `")
                    (.identifier "name"))
                  (.literal "` was not imported, exported, or given")])]))])

/-- Modelled from the spec: the repository's
`estree-util-specifiers-to-object-pattern` utility (in `src/lib/util`, not
included under `src/`) converts import specifiers into an object pattern
binding each imported name to its local alias. -/
def specifiersToObjectPattern (specifiers : List ENode) : ENode :=
  .objectPattern (specifiers.map fun s =>
    match s with
    | .importSpecifier imported localName =>
      .property "init" false imported localName
    | s => s)

/-- Builds the provider import: in `function-body` mode a `const {…} =
arguments[0]` destructuring of the provider accessor, otherwise an import
of `useMDXComponents` aliased to `_provideComponents` from the configured
source. -/
def createImportProvider (providerImportSource : Option String)
    (outputFormat : Option String) : ENode :=
  let specifiers :=
    [ENode.importSpecifier (.identifier "useMDXComponents") (.identifier "_provideComponents")]
  if outputFormat = some "function-body" then
    .variableDeclaration "const"
      [.variableDeclarator (specifiersToObjectPattern specifiers)
        (.memberExpression (.identifier "arguments") (.literalNum 0) true)]
  else
    -- `providerImportSource` is truthy whenever this branch is emitted.
    .importDeclaration specifiers (.literal (providerImportSource.getD ""))

mutual

/-- A termination measure for the traversal that counts only the `ENode`
structure (JSX name nodes are ignored, so the in-place name rewrite done
by `onenter` preserves it). -/
def nweight : ENode → Nat
  | .identifier _ => 1
  | .literal _ => 1
  | .literalNum _ => 1
  | .property _ _ k v => 1 + (nweight k + 2) + (nweight v + 2)
  | .objectExpression ps => 1 + lweight ps
  | .objectPattern ps => 1 + lweight ps
  | .callExpression c args => 1 + (nweight c + 2) + lweight args
  | .memberExpression o p _ => 1 + (nweight o + 2) + (nweight p + 2)
  | .variableDeclarator i ini => 1 + (nweight i + 2) + (nweight ini + 2)
  | .variableDeclaration _ ds => 1 + lweight ds
  | .functionDeclaration i ps b => 1 + (nweight i + 2) + lweight ps + (nweight b + 2)
  | .functionExpression ps b => 1 + lweight ps + (nweight b + 2)
  | .arrowFunctionExpression ps b => 1 + lweight ps + (nweight b + 2)
  | .blockStatement ss => 1 + lweight ss
  | .returnStatement a => 1 + (nweight a + 2)
  | .throwStatement a => 1 + (nweight a + 2)
  | .newExpression c args => 1 + (nweight c + 2) + lweight args
  | .binaryExpression _ l r => 1 + (nweight l + 2) + (nweight r + 2)
  | .importSpecifier i l => 1 + (nweight i + 2) + (nweight l + 2)
  | .importDeclaration ss s => 1 + lweight ss + (nweight s + 2)
  | .expressionStatement e => 1 + (nweight e + 2)
  | .jsxElement _ _ _ attrs ch => 1 + lweight attrs + lweight ch
  | .program b => 1 + lweight b

/-- List companion of `nweight`. -/
def lweight : List ENode → Nat
  | [] => 0
  | e :: es => (nweight e + 2) + lweight es

end

/-- The `onenter` callback only ever rewrites JSX *names*; the `ENode` structure, and
hence the traversal measure, is unchanged. -/
theorem nweight_onenter (isIdent : String → Bool) (topScope : List String)
    (st : WalkState) (n : ENode) :
    nweight (onenter isIdent topScope st n).2 = nweight n := by
  cases n <;> simp only [onenter] <;> (repeat' split) <;> simp [nweight]

mutual

/-- One step of `walk(tree, {enter: onenter, leave: onleave})`: enter the
node, recurse into its children (of the entered node — `onenter` mutates
names in place before the walker descends), then leave it. -/
def walkNode (isIdent : String → Bool) (topScope : List String)
    (providerImportSource : Option String)
    (st : WalkState) (n : ENode) : WalkState × ENode :=
  let en := onenter isIdent topScope st n
  let kd := walkKids isIdent topScope providerImportSource en.1 en.2
  onleave providerImportSource kd.1 kd.2
termination_by 2 * nweight n + 2
decreasing_by simp only [nweight_onenter]; omega

/-- Recurse into every child node, threading the traversal state in
estree key order. -/
def walkKids (isIdent : String → Bool) (topScope : List String)
    (providerImportSource : Option String)
    (st : WalkState) (n : ENode) : WalkState × ENode :=
  match n with
  | .identifier _ => (st, n)
  | .literal _ => (st, n)
  | .literalNum _ => (st, n)
  | .property kind sh k v =>
    let a := walkNode isIdent topScope providerImportSource st k
    let b := walkNode isIdent topScope providerImportSource a.1 v
    (b.1, .property kind sh a.2 b.2)
  | .objectExpression ps =>
    let a := walkList isIdent topScope providerImportSource st ps
    (a.1, .objectExpression a.2)
  | .objectPattern ps =>
    let a := walkList isIdent topScope providerImportSource st ps
    (a.1, .objectPattern a.2)
  | .callExpression c args =>
    let a := walkNode isIdent topScope providerImportSource st c
    let b := walkList isIdent topScope providerImportSource a.1 args
    (b.1, .callExpression a.2 b.2)
  | .memberExpression o p comp =>
    let a := walkNode isIdent topScope providerImportSource st o
    let b := walkNode isIdent topScope providerImportSource a.1 p
    (b.1, .memberExpression a.2 b.2 comp)
  | .variableDeclarator i ini =>
    let a := walkNode isIdent topScope providerImportSource st i
    let b := walkNode isIdent topScope providerImportSource a.1 ini
    (b.1, .variableDeclarator a.2 b.2)
  | .variableDeclaration kind ds =>
    let a := walkList isIdent topScope providerImportSource st ds
    (a.1, .variableDeclaration kind a.2)
  | .functionDeclaration i ps b =>
    let x := walkNode isIdent topScope providerImportSource st i
    let y := walkList isIdent topScope providerImportSource x.1 ps
    let z := walkNode isIdent topScope providerImportSource y.1 b
    (z.1, .functionDeclaration x.2 y.2 z.2)
  | .functionExpression ps b =>
    let y := walkList isIdent topScope providerImportSource st ps
    let z := walkNode isIdent topScope providerImportSource y.1 b
    (z.1, .functionExpression y.2 z.2)
  | .arrowFunctionExpression ps b =>
    let y := walkList isIdent topScope providerImportSource st ps
    let z := walkNode isIdent topScope providerImportSource y.1 b
    (z.1, .arrowFunctionExpression y.2 z.2)
  | .blockStatement ss =>
    let a := walkList isIdent topScope providerImportSource st ss
    (a.1, .blockStatement a.2)
  | .returnStatement a =>
    let x := walkNode isIdent topScope providerImportSource st a
    (x.1, .returnStatement x.2)
  | .throwStatement a =>
    let x := walkNode isIdent topScope providerImportSource st a
    (x.1, .throwStatement x.2)
  | .newExpression c args =>
    let a := walkNode isIdent topScope providerImportSource st c
    let b := walkList isIdent topScope providerImportSource a.1 args
    (b.1, .newExpression a.2 b.2)
  | .binaryExpression op l r =>
    let a := walkNode isIdent topScope providerImportSource st l
    let b := walkNode isIdent topScope providerImportSource a.1 r
    (b.1, .binaryExpression op a.2 b.2)
  | .importSpecifier i l =>
    let a := walkNode isIdent topScope providerImportSource st i
    let b := walkNode isIdent topScope providerImportSource a.1 l
    (b.1, .importSpecifier a.2 b.2)
  | .importDeclaration ss s =>
    let a := walkList isIdent topScope providerImportSource st ss
    let b := walkNode isIdent topScope providerImportSource a.1 s
    (b.1, .importDeclaration a.2 b.2)
  | .expressionStatement e =>
    let x := walkNode isIdent topScope providerImportSource st e
    (x.1, .expressionStatement x.2)
  | .jsxElement o c ex attrs ch =>
    let a := walkList isIdent topScope providerImportSource st attrs
    let b := walkList isIdent topScope providerImportSource a.1 ch
    (b.1, .jsxElement o c ex a.2 b.2)
  | .program b =>
    let a := walkList isIdent topScope providerImportSource st b
    (a.1, .program a.2)
termination_by 2 * nweight n + 1
decreasing_by all_goals (simp only [nweight, lweight]; omega)

/-- Walk a list of sibling nodes left to right. -/
def walkList (isIdent : String → Bool) (topScope : List String)
    (providerImportSource : Option String)
    (st : WalkState) (l : List ENode) : WalkState × List ENode :=
  match l with
  | [] => (st, [])
  | e :: es =>
    let a := walkNode isIdent topScope providerImportSource st e
    let b := walkList isIdent topScope providerImportSource a.1 es
    (b.1, a.2 :: b.2)
termination_by 2 * lweight l
decreasing_by all_goals (simp only [nweight, lweight]; omega)

end

/-- Performs `tree.body.unshift(x)` on the root program node. -/
def unshiftBody (x : ENode) (tree : ENode) : ENode :=
  match tree with
  | .program b => .program (x :: b)
  | t => t

/-- The recognized options (`outputFormat`, `providerImportSource`), both
optional as in the source. -/
structure RecmaJsxRewriteOptions where
  outputFormat : Option String := none
  providerImportSource : Option String := none

/-- The `transform` function returned by `recmaJsxRewrite(options)`:
analyze the top scope, walk the tree with `onenter`/`onleave`, then
conditionally unshift the missing-component helper and, after it, the
provider import at the root.  `analyze` is the external `periscopic`
collaborator producing the top-level declarations. -/
def transform (isIdent : String → Bool) (analyze : ENode → List String)
    (options : RecmaJsxRewriteOptions) (tree : ENode) : ENode :=
  let topScope := analyze tree
  let r := walkNode isIdent topScope options.providerImportSource ⟨[], false, false⟩ tree
  let r2 :=
    if r.1.useMissingComponentHelper then unshiftBody createMissingComponentHelper r.2
    else r.2
  if r.1.importProvider then
    unshiftBody (createImportProvider options.providerImportSource options.outputFormat) r2
  else r2

/-! ## A fragment of JS runtime semantics

Used to settle what the *generated* missing-component helper does when the
produced program runs: values, environments, and a fuel-indexed evaluator
covering exactly the constructs appearing in the helper (literals,
identifiers, string concatenation, function expressions, `new Error`,
calls, `return` and `throw`). -/

/-- Runtime values of the fragment. -/
inductive Value where
  | str (s : String)
  | closure (params : List String) (env : List (String × Value)) (body : ENode)
  | errorObj (message : String)
  | undefined
deriving Repr

/-- Innermost-first environment lookup (`undefined` when absent). -/
def lookupEnv : List (String × Value) → String → Value
  | [], _ => .undefined
  | (k, v) :: rest, n => if k = n then v else lookupEnv rest n

mutual

/-- Evaluate an expression.  A thrown value is an `Except.error`. -/
def evalExpr : Nat → List (String × Value) → ENode → Except Value Value
  | 0, _, _ => .error (.errorObj "out of fuel")
  | fuel + 1, env, e =>
    match e with
    | .literal s => .ok (.str s)
    | .identifier n => .ok (lookupEnv env n)
    | .binaryExpression op l r =>
      (evalExpr fuel env l).bind fun vl =>
        (evalExpr fuel env r).bind fun vr =>
          if op = "+" then
            match vl, vr with
            | .str a, .str b => .ok (.str (a ++ b))
            | _, _ => .ok .undefined
          else .ok .undefined
    | .functionExpression params body =>
      .ok (.closure (params.map enodeName) env body)
    | .newExpression (.identifier "Error") args =>
      (evalExprList fuel env args).bind fun vs =>
        .ok (.errorObj (match vs with | .str s :: _ => s | _ => ""))
    | .callExpression callee args =>
      (evalExpr fuel env callee).bind fun vc =>
        (evalExprList fuel env args).bind fun vs =>
          match vc with
          | .closure ps cenv body => callFunction fuel ps cenv body vs
          | _ => .error (.errorObj "TypeError: not a function")
    | _ => .ok .undefined

/-- Evaluate an argument list left to right. -/
def evalExprList : Nat → List (String × Value) → List ENode → Except Value (List Value)
  | 0, _, _ => .error (.errorObj "out of fuel")
  | fuel + 1, env, l =>
    match l with
    | [] => .ok []
    | e :: es =>
      (evalExpr fuel env e).bind fun v =>
        (evalExprList fuel env es).bind fun vs => .ok (v :: vs)

/-- Invoke a function value: bind the parameters over the captured
environment and run the block body; falling off the end returns
`undefined`. -/
def callFunction : Nat → List String → List (String × Value) → ENode → List Value →
    Except Value Value
  | 0, _, _, _, _ => .error (.errorObj "out of fuel")
  | fuel + 1, params, cenv, body, args =>
    match body with
    | .blockStatement stmts =>
      (execStmts fuel (params.zip args ++ cenv) stmts).bind fun r => .ok (r.getD .undefined)
    | _ => .ok .undefined

/-- Run statements in order; `some v` is an explicit return. -/
def execStmts : Nat → List (String × Value) → List ENode → Except Value (Option Value)
  | 0, _, _ => .error (.errorObj "out of fuel")
  | fuel + 1, env, l =>
    match l with
    | [] => .ok none
    | s :: rest =>
      match s with
      | .returnStatement a => (evalExpr fuel env a).bind fun v => .ok (some v)
      | .throwStatement a => (evalExpr fuel env a).bind fun v => .error v
      | _ => execStmts fuel env rest

end

/-- Reads `.params` of a function declaration, as parameter names. -/
def fnParams : ENode → List String
  | .functionDeclaration _ params _ => params.map enodeName
  | _ => []

/-- Reads `.body` of a function node. -/
def fnBody : ENode → ENode
  | .functionDeclaration _ _ b => b
  | .functionExpression _ b => b
  | .arrowFunctionExpression _ b => b
  | n => n

/-! ## Claims -/

/-- C10: a JSX element encountered while the scope stack is empty (outside
every function) is left completely untouched: same node back, no set
updated, no flag set. -/
theorem jsx_outside_function_untouched (isIdent : String → Bool)
    (topScope : List String) (f1 f2 : Bool) (name : JSXName)
    (closing : Option JSXName) (ex : Bool) (attrs children : List ENode) :
    onenter isIdent topScope ⟨[], f1, f2⟩
        (.jsxElement name closing ex attrs children)
      = (⟨[], f1, f2⟩, .jsxElement name closing ex attrs children) := by
  simp [onenter, isFunctionNode]

/-- C7: a function whose popped frame has empty `tags`, `components` and
`objects` sets receives no injected declarations on leave: the node (its
body included) comes back structurally unchanged, and only the frame is
popped.  In particular an arrow-shorthand body is not wrapped. -/
theorem empty_frame_no_injection (providerImportSource : Option String)
    (st : WalkState) (node : ENode)
    (hfn : isFunctionNode node = true)
    (hsc : st.stack.getLast? = some ⟨[], [], []⟩) :
    onleave providerImportSource st node
      = ({ st with stack := st.stack.dropLast }, node) := by
  simp [onleave, hfn, hsc, defaultsOf, actualOf]

/-- Witness for C7: an arrow function with an expression (implicit-return)
body and an empty popped frame passes through `onleave` unchanged — the
body is not wrapped into a block. -/
theorem empty_frame_no_injection_witness :
    isFunctionNode (ENode.arrowFunctionExpression [] (.identifier "x")) = true
    ∧ (⟨[⟨[], [], []⟩], false, false⟩ : WalkState).stack.getLast? = some ⟨[], [], []⟩
    ∧ onleave none ⟨[⟨[], [], []⟩], false, false⟩
        (ENode.arrowFunctionExpression [] (.identifier "x"))
      = (⟨[], false, false⟩, ENode.arrowFunctionExpression [] (.identifier "x")) :=
  ⟨rfl, rfl,
    empty_frame_no_injection none ⟨[⟨[], [], []⟩], false, false⟩
      (ENode.arrowFunctionExpression [] (.identifier "x")) rfl rfl⟩

/-- C9: with more than one initializer part, the `_components` initializer
is `Object.assign(...parameters)` with the parts in their original order
(shallow merge, later parts overriding earlier); with exactly one part,
that part is the initializer itself, with no wrapper. -/
theorem components_init_merge (parameters : List ENode) (p : ENode) :
    (parameters.length > 1 →
      componentsInit parameters
        = .callExpression
            (.memberExpression (.identifier "Object") (.identifier "assign") false)
            parameters)
    ∧ componentsInit [p] = p := by
  constructor
  · intro h
    simp [componentsInit, h]
  · simp [componentsInit]

/-- Witness for C9 at a two-part and a one-part parameter list. -/
theorem components_init_merge_witness :
    ([ENode.objectExpression [], ENode.identifier "x"].length > 1
      ∧ componentsInit [ENode.objectExpression [], ENode.identifier "x"]
        = .callExpression
            (.memberExpression (.identifier "Object") (.identifier "assign") false)
            [ENode.objectExpression [], ENode.identifier "x"])
    ∧ componentsInit [ENode.identifier "y"] = ENode.identifier "y" :=
  ⟨⟨by decide,
    (components_init_merge [ENode.objectExpression [], ENode.identifier "x"]
      (ENode.identifier "y")).1 (by decide)⟩,
   (components_init_merge [ENode.objectExpression [], ENode.identifier "x"]
      (ENode.identifier "y")).2⟩

/-- C1: a lowercase-leading, non-explicit plain-identifier element inside
an open frame has its opening (and closing, when present) name rewritten
to `_components.<name>`, the name is recorded (once) in frame 0's `tags`,
the flags are untouched — and any frame whose `tags` holds the name
yields the string-literal fallback `<name>: "<name>"` in the synthesized
defaults list. -/
theorem lowercase_tag_rewrite (isIdent : String → Bool) (topScope : List String)
    (scope : Scope) (rest : List Scope) (f1 f2 : Bool) (nm : String)
    (closing : Option JSXName) (attrs children : List ENode)
    (hlow : startsWithLowercase nm = true) :
    onenter isIdent topScope ⟨scope :: rest, f1, f2⟩
        (.jsxElement (.jsxIdentifier nm) closing false attrs children)
      = (⟨(if scope.tags.contains nm then scope
           else ⟨scope.objects, scope.components, scope.tags ++ [nm]⟩) :: rest, f1, f2⟩,
         .jsxElement
           (.jsxMemberExpression (.jsxIdentifier "_components") (.jsxIdentifier nm))
           (match closing with
            | some _ =>
              some (.jsxMemberExpression (.jsxIdentifier "_components") (.jsxIdentifier nm))
            | none => none)
           false attrs children)
    ∧ nm ∈ (if scope.tags.contains nm then scope.tags else scope.tags ++ [nm])
    ∧ ∀ sc : Scope, nm ∈ sc.tags →
        ENode.property "init" false (.identifier nm) (.literal nm) ∈ defaultsOf sc := by
  refine ⟨?_, ?_, ?_⟩
  · simp [onenter, isFunctionNode, hlow]
  · by_cases h : nm ∈ scope.tags <;> simp [h]
  · intro sc h
    simp only [defaultsOf, List.mem_append, List.mem_map]
    exact Or.inl ⟨nm, h, rfl⟩

/-- Witness for C1: `<h1>…</h1>` inside a single open frame is rewritten
to `<_components.h1>` and recorded. -/
theorem lowercase_tag_rewrite_witness :
    startsWithLowercase "h1" = true
    ∧ (onenter (fun _ => true) [] ⟨[⟨[], [], []⟩], false, false⟩
        (.jsxElement (.jsxIdentifier "h1")
          (some (.jsxIdentifier "h1")) false [] [])
      = (⟨[⟨[], [], ["h1"]⟩], false, false⟩,
         .jsxElement
           (.jsxMemberExpression (.jsxIdentifier "_components") (.jsxIdentifier "h1"))
           (some (.jsxMemberExpression (.jsxIdentifier "_components") (.jsxIdentifier "h1")))
           false [] [])
      ∧ "h1" ∈ (if Scope.tags ⟨[], [], []⟩ |>.contains "h1" then Scope.tags ⟨[], [], []⟩
                else Scope.tags ⟨[], [], []⟩ ++ ["h1"])
      ∧ ∀ sc : Scope, "h1" ∈ sc.tags →
          ENode.property "init" false (.identifier "h1") (.literal "h1") ∈ defaultsOf sc) := by
  refine ⟨rfl, ?_⟩
  have h := lowercase_tag_rewrite (fun _ => true) [] ⟨[], [], []⟩ [] false false "h1"
    (some (.jsxIdentifier "h1")) [] [] rfl
  exact h

/-- Counterexample to C2 as stated: the tag branch does *not* consult
`topScope`.  With `h1` declared at the top level, a non-explicit `<h1>`
element still pushes `"h1"` into the frame's `tags` set. -/
theorem topscope_tag_counterexample :
    "h1" ∈ (["h1"] : List String)
    ∧ (onenter (fun _ => true) ["h1"] ⟨[⟨[], [], []⟩], false, false⟩
        (.jsxElement (.jsxIdentifier "h1") none false [] [])).1.stack
      = [⟨[], [], ["h1"]⟩] :=
  ⟨by decide, rfl⟩

/-- C2 (amended): a name bound in `TopScope` is never added to any
frame's `objects` or `components` set by entering a JSX element — the
per-frame membership pattern of such a name in those two sets is exactly
preserved.  (`tags` is exempt: the tag branch does not consult
`TopScope`.) -/
theorem topscope_excluded_objects_components (isIdent : String → Bool)
    (topScope : List String) (st : WalkState) (name : JSXName)
    (closing : Option JSXName) (ex : Bool) (attrs children : List ENode)
    (x : String) (hx : x ∈ topScope) :
    ((onenter isIdent topScope st
        (.jsxElement name closing ex attrs children)).1.stack.map
      (fun sc => (sc.objects.contains x, sc.components.contains x)))
      = st.stack.map (fun sc => (sc.objects.contains x, sc.components.contains x)) := by
  have hx' : topScope.contains x = true := by simpa using hx
  obtain ⟨stk, g1, g2⟩ := st
  cases stk with
  | nil => cases name <;> simp [onenter, isFunctionNode]
  | cons scope rest =>
    cases name with
    | jsxNamespacedName a b => simp [onenter, isFunctionNode]
    | jsxMemberExpression obj propn =>
      by_cases h2 : jsxNameDotName (leftmostName (.jsxMemberExpression obj propn)) ∈ topScope
      · simp [onenter, isFunctionNode, h2]
      · have hne : x ≠ jsxNameDotName (leftmostName (.jsxMemberExpression obj propn)) :=
          fun e => h2 (e ▸ hx)
        simp [onenter, isFunctionNode]
        all_goals ((repeat' split) <;> simp [hne])
    | jsxIdentifier nm =>
      by_cases hc : nm = x
      · subst hc
        have hg : ¬(nm ∉ scope.components ∧ nm ∉ topScope) := fun g => g.2 hx
        simp [onenter, isFunctionNode, hg]
        all_goals ((repeat' split) <;> simp)
      · have hc' : x ≠ nm := Ne.symm hc
        simp [onenter, isFunctionNode]
        all_goals ((repeat' split) <;> simp [hc'])

/-- Witness for the amended C2 at a concrete input: a capitalized
component name present in `TopScope` is not added to `components`. -/
theorem topscope_excluded_objects_components_witness :
    "Foo" ∈ (["Foo"] : List String)
    ∧ ((onenter (fun _ => true) ["Foo"] ⟨[⟨[], [], []⟩], false, false⟩
          (.jsxElement (.jsxIdentifier "Foo") none false [] [])).1.stack.map
        (fun sc => (sc.objects.contains "Foo", sc.components.contains "Foo")))
        = ([⟨[], [], []⟩] : List Scope).map
            (fun sc => (sc.objects.contains "Foo", sc.components.contains "Foo")) :=
  ⟨by decide,
   topscope_excluded_objects_components (fun _ => true) ["Foo"]
     ⟨[⟨[], [], []⟩], false, false⟩ (.jsxIdentifier "Foo") none false [] [] "Foo"
     (by decide)⟩

/-- C8: an element named by a member chain is never rewritten and affects
at most frame 0's `objects`, appending exactly the chain's leftmost
identifier (guarded by `objects` membership and `TopScope`); a second
element with the same leftmost identifier is a complete no-op; and a
namespaced element is fully inert. -/
theorem member_chain_and_namespace (isIdent : String → Bool)
    (topScope : List String) (scope : Scope) (rest : List Scope) (f1 f2 : Bool)
    (obj propn : JSXName) (closing : Option JSXName) (ex : Bool)
    (attrs children : List ENode) (ns nsname : String) (lm : String)
    (hlm : leftmostName (.jsxMemberExpression obj propn) = .jsxIdentifier lm) :
    onenter isIdent topScope ⟨scope :: rest, f1, f2⟩
        (.jsxElement (.jsxMemberExpression obj propn) closing ex attrs children)
      = (⟨(if !(scope.objects.contains lm) && !(topScope.contains lm) then
             ⟨scope.objects ++ [lm], scope.components, scope.tags⟩
           else scope) :: rest, f1, f2⟩,
         .jsxElement (.jsxMemberExpression obj propn) closing ex attrs children)
    ∧ (∀ obj2 propn2 closing2 ex2 attrs2 children2,
        leftmostName (.jsxMemberExpression obj2 propn2) = .jsxIdentifier lm →
        onenter isIdent topScope
            (onenter isIdent topScope ⟨scope :: rest, f1, f2⟩
              (.jsxElement (.jsxMemberExpression obj propn) closing ex attrs
                children)).1
            (.jsxElement (.jsxMemberExpression obj2 propn2) closing2 ex2 attrs2 children2)
          = ((onenter isIdent topScope ⟨scope :: rest, f1, f2⟩
              (.jsxElement (.jsxMemberExpression obj propn) closing ex attrs
                children)).1,
             .jsxElement (.jsxMemberExpression obj2 propn2) closing2 ex2 attrs2 children2))
    ∧ onenter isIdent topScope ⟨scope :: rest, f1, f2⟩
        (.jsxElement (.jsxNamespacedName ns nsname) closing ex attrs children)
      = (⟨scope :: rest, f1, f2⟩,
         .jsxElement (.jsxNamespacedName ns nsname) closing ex attrs children) := by
  refine ⟨?_, ?_, ?_⟩
  · by_cases h1 : lm ∈ scope.objects <;> by_cases h2 : lm ∈ topScope <;>
      simp [onenter, isFunctionNode, hlm, jsxNameDotName, h1, h2]
  · intro obj2 propn2 closing2 ex2 attrs2 children2 hlm2
    by_cases h1 : lm ∈ scope.objects <;> by_cases h2 : lm ∈ topScope <;>
      simp [onenter, isFunctionNode, hlm, hlm2, jsxNameDotName, h1, h2]
  · simp [onenter, isFunctionNode]

/-- Witness for C8: `<Foo.Bar/>` with `Foo` untracked adds `Foo` once to
`objects` and leaves the element untouched; repeating it is a no-op;
`<xml:thing/>` is inert. -/
theorem member_chain_and_namespace_witness :
    leftmostName (.jsxMemberExpression (.jsxIdentifier "Foo") (.jsxIdentifier "Bar"))
      = .jsxIdentifier "Foo"
    ∧ (onenter (fun _ => true) [] ⟨[⟨[], [], []⟩], false, false⟩
        (.jsxElement (.jsxMemberExpression (.jsxIdentifier "Foo") (.jsxIdentifier "Bar"))
          none false [] [])
      = (⟨[(if !((Scope.objects ⟨[], [], []⟩).contains "Foo")
              && !(([] : List String).contains "Foo") then
            ⟨Scope.objects ⟨[], [], []⟩ ++ ["Foo"], Scope.components ⟨[], [], []⟩,
              Scope.tags ⟨[], [], []⟩⟩
          else ⟨[], [], []⟩)], false, false⟩,
         .jsxElement (.jsxMemberExpression (.jsxIdentifier "Foo") (.jsxIdentifier "Bar"))
           none false [] [])
      ∧ (∀ obj2 propn2 closing2 ex2 attrs2 children2,
          leftmostName (.jsxMemberExpression obj2 propn2) = .jsxIdentifier "Foo" →
          onenter (fun _ => true) []
              (onenter (fun _ => true) [] ⟨[⟨[], [], []⟩], false, false⟩
                (.jsxElement
                  (.jsxMemberExpression (.jsxIdentifier "Foo") (.jsxIdentifier "Bar"))
                  none false [] [])).1
              (.jsxElement (.jsxMemberExpression obj2 propn2) closing2 ex2 attrs2 children2)
            = ((onenter (fun _ => true) [] ⟨[⟨[], [], []⟩], false, false⟩
                (.jsxElement
                  (.jsxMemberExpression (.jsxIdentifier "Foo") (.jsxIdentifier "Bar"))
                  none false [] [])).1,
               .jsxElement (.jsxMemberExpression obj2 propn2) closing2 ex2 attrs2
                 children2))
      ∧ onenter (fun _ => true) [] ⟨[⟨[], [], []⟩], false, false⟩
          (.jsxElement (.jsxNamespacedName "xml" "thing") none false [] [])
        = (⟨[⟨[], [], []⟩], false, false⟩,
           .jsxElement (.jsxNamespacedName "xml" "thing") none false [] [])) :=
  ⟨rfl,
   member_chain_and_namespace (fun _ => true) [] ⟨[], [], []⟩ [] false false
     (.jsxIdentifier "Foo") (.jsxIdentifier "Bar") none false [] [] "xml" "thing"
     "Foo" rfl⟩

/-- Counterexample to C3 as stated: when `MDXLayout` is discovered both as
a component (`<MDXLayout/>`) and as a member-chain object root
(`<MDXLayout.Foo/>`), the objects part of the destructuring pattern
contributes a shorthand entry keyed `MDXLayout` — so `MDXLayout` *is*
bound from the key `MDXLayout` in the injected destructuring
declaration. -/
theorem mdxlayout_object_root_counterexample :
    "MDXLayout" ∈ (Scope.mk ["MDXLayout"] ["MDXLayout"] []).components
    ∧ onleave none ⟨[⟨["MDXLayout"], ["MDXLayout"], []⟩], false, false⟩
        (.functionExpression [] (.blockStatement []))
      = (⟨[], false, false⟩,
         .functionExpression []
           (.blockStatement
             [.variableDeclaration "const"
               [.variableDeclarator (.identifier "_components") (.objectExpression []),
                .variableDeclarator
                  (.objectPattern
                    [.property "init" false (.identifier "wrapper") (.identifier "MDXLayout"),
                     .property "init" true (.identifier "MDXLayout") (.identifier "MDXLayout")])
                  (.identifier "_components")]])) :=
  ⟨by decide, rfl⟩

/-- C3 (amended): discovering the element `MDXLayout` never sets the
missing-component flag; no defaults entry ever carries a
`_missingComponent("MDXLayout")` fallback; the components-derived
destructuring entry for `MDXLayout` binds it non-shorthand from the key
`wrapper`; and no destructuring entry is keyed `MDXLayout` unless
`MDXLayout` was also discovered as a member-chain object root (in which
case the objects part contributes a shorthand `MDXLayout` entry). -/
theorem mdxlayout_special_casing (isIdent : String → Bool) (topScope : List String)
    (st : WalkState) (closing : Option JSXName) (ex : Bool)
    (attrs children : List ENode) (scope : Scope) :
    (onenter isIdent topScope st
        (.jsxElement (.jsxIdentifier "MDXLayout") closing ex attrs
          children)).1.useMissingComponentHelper
      = st.useMissingComponentHelper
    ∧ (∀ p ∈ defaultsOf scope, ∀ sh k,
        p ≠ ENode.property "init" sh k
              (.callExpression (.identifier "_missingComponent") [.literal "MDXLayout"]))
    ∧ ("MDXLayout" ∈ scope.components →
        ENode.property "init" false (.identifier "wrapper") (.identifier "MDXLayout")
          ∈ actualOf scope)
    ∧ ("MDXLayout" ∉ scope.objects →
        ∀ p ∈ actualOf scope, ∀ sh v,
          p ≠ ENode.property "init" sh (.identifier "MDXLayout") v) := by
  refine ⟨?_, ?_, ?_, ?_⟩
  · obtain ⟨stk, g1, g2⟩ := st
    cases stk with
    | nil => simp [onenter, isFunctionNode]
    | cons scope rest =>
      simp [onenter, isFunctionNode]
      all_goals ((repeat' split) <;> simp)
  · intro p hp sh k
    simp only [defaultsOf, List.mem_append, List.mem_map, List.mem_filter] at hp
    rcases hp with ⟨n, hn, rfl⟩ | ⟨n, ⟨hn1, hn2⟩, rfl⟩
    · simp
    · have hne : n ≠ "MDXLayout" := by simpa using hn2
      simp [hne]
  · intro h
    exact List.mem_append_left _ (List.mem_map.mpr ⟨"MDXLayout", h, by simp⟩)
  · intro hobj p hp sh v
    simp only [actualOf, List.mem_append, List.mem_map] at hp
    rcases hp with ⟨n, hn, rfl⟩ | ⟨n, hn, rfl⟩
    · by_cases hn2 : n = "MDXLayout"
      · subst hn2
        simp
      · simp [hn2]
    · have hne : n ≠ "MDXLayout" := fun e => hobj (e ▸ hn)
      simp [hne]

/-- Witness for the amended C3 at a concrete frame (`MDXLayout` and `Foo`
discovered as components, `h1` as a tag, no object roots). -/
theorem mdxlayout_special_casing_witness :
    ((onenter (fun _ => true) [] ⟨[⟨[], [], []⟩], false, false⟩
        (.jsxElement (.jsxIdentifier "MDXLayout") none false [] [])).1.useMissingComponentHelper
      = (⟨[⟨[], [], []⟩], false, false⟩ : WalkState).useMissingComponentHelper)
    ∧ ("MDXLayout" ∈ (Scope.mk [] ["MDXLayout", "Foo"] ["h1"]).components
        ∧ ENode.property "init" false (.identifier "wrapper") (.identifier "MDXLayout")
            ∈ actualOf ⟨[], ["MDXLayout", "Foo"], ["h1"]⟩)
    ∧ ("MDXLayout" ∉ (Scope.mk [] ["MDXLayout", "Foo"] ["h1"]).objects
        ∧ ∀ p ∈ actualOf ⟨[], ["MDXLayout", "Foo"], ["h1"]⟩, ∀ sh v,
            p ≠ ENode.property "init" sh (.identifier "MDXLayout") v) :=
  ⟨(mdxlayout_special_casing (fun _ => true) [] ⟨[⟨[], [], []⟩], false, false⟩
      none false [] [] ⟨[], ["MDXLayout", "Foo"], ["h1"]⟩).1,
   ⟨by decide,
    (mdxlayout_special_casing (fun _ => true) [] ⟨[⟨[], [], []⟩], false, false⟩
      none false [] [] ⟨[], ["MDXLayout", "Foo"], ["h1"]⟩).2.2.1 (by decide)⟩,
   ⟨by decide,
    (mdxlayout_special_casing (fun _ => true) [] ⟨[⟨[], [], []⟩], false, false⟩
      none false [] [] ⟨[], ["MDXLayout", "Foo"], ["h1"]⟩).2.2.2 (by decide)⟩⟩

/-- Counterexample to C5 as stated: the props access appended for the
`MDXContent` declaration reads off the fixed identifier `_props`, not the
function's declared first parameter.  Here the first parameter is named
`props`, yet the emitted last part is `_props.components`. -/
theorem mdxcontent_props_counterexample :
    onleave none ⟨[⟨[], [], ["h1"]⟩], false, false⟩
        (.functionDeclaration (.identifier "MDXContent") [.identifier "props"]
          (.blockStatement []))
      = (⟨[], false, false⟩,
         .functionDeclaration (.identifier "MDXContent") [.identifier "props"]
           (.blockStatement
             [.variableDeclaration "const"
               [.variableDeclarator (.identifier "_components")
                 (.callExpression
                   (.memberExpression (.identifier "Object") (.identifier "assign") false)
                   [.objectExpression
                     [.property "init" false (.identifier "h1") (.literal "h1")],
                    .memberExpression (.identifier "_props") (.identifier "components")
                      false])]]))
    ∧ (parametersFor none true
        (defaultsOf ⟨[], [], ["h1"]⟩)).getLast?
        ≠ some (.memberExpression (.identifier "props") (.identifier "components") false) :=
  ⟨rfl, by simp [parametersFor, defaultsOf, strOptTruthy]⟩

/-- C5 (amended): when the Declaration Synthesizer runs for the
`MDXContent` function declaration, the last part appended to the
initializer parameter list is the member access `_props.components` (the
fixed identifier `_props`; the declared parameter list is not consulted),
the list then has more than one part, and the initializer is the
`Object.assign` merge of those parts. -/
theorem mdxcontent_props_access (providerImportSource : Option String)
    (defaults : List ENode) :
    (parametersFor providerImportSource true defaults).getLast?
      = some (.memberExpression (.identifier "_props") (.identifier "components") false)
    ∧ (parametersFor providerImportSource true defaults).length > 1
    ∧ componentsInit (parametersFor providerImportSource true defaults)
      = .callExpression
          (.memberExpression (.identifier "Object") (.identifier "assign") false)
          (parametersFor providerImportSource true defaults) := by
  cases h : strOptTruthy providerImportSource <;>
    simp [parametersFor, componentsInit, h]

/-- C4: the generated `_missingComponent` helper takes the single
parameter `name`; calling it with any string returns a zero-parameter
closure without throwing, and only invoking that returned closure throws
an `Error` whose message is `"Component \x60" + name +
"\x60 was not imported, exported, or given"`. -/
theorem missing_component_helper_defers (nm : String) :
    fnParams createMissingComponentHelper = ["name"]
    ∧ ∃ cenv b,
        callFunction 9 (fnParams createMissingComponentHelper) []
            (fnBody createMissingComponentHelper) [Value.str nm]
          = .ok (.closure [] cenv b)
        ∧ callFunction 9 [] cenv b []
          = .error (.errorObj
              (("Component `" ++ nm) ++ "` was not imported, exported, or given")) :=
  ⟨rfl,
   [("name", .str nm)],
   .blockStatement
     [.throwStatement
       (.newExpression (.identifier "Error")
         [.binaryExpression "+"
           (.binaryExpression "+" (.literal "Component `") (.identifier "name"))
           (.literal "` was not imported, exported, or given")])],
   rfl, rfl⟩

/-- The walker on the root program node: enter and leave are no-ops there,
so walking the program is walking its statement list. -/
theorem walkNode_program (isIdent : String → Bool) (topScope : List String)
    (providerImportSource : Option String) (st : WalkState) (b : List ENode) :
    walkNode isIdent topScope providerImportSource st (.program b)
      = ((walkList isIdent topScope providerImportSource st b).1,
         .program (walkList isIdent topScope providerImportSource st b).2) := by
  rw [walkNode]
  simp [onenter, onleave, walkKids, isFunctionNode]

/-- C6: after the full traversal the provider import is prepended at the
root exactly when the provider flag was set during the walk (once), the
missing-component helper exactly when its flag was set (once), and when
both are present the order is: provider import, helper declaration, then
the tree's traversed statements. -/
theorem root_prepend_order (isIdent : String → Bool) (analyze : ENode → List String)
    (outputFormat providerImportSource : Option String) (b : List ENode) :
    transform isIdent analyze ⟨outputFormat, providerImportSource⟩ (.program b)
      = .program
          ((if (walkList isIdent (analyze (.program b)) providerImportSource
                  ⟨[], false, false⟩ b).1.importProvider then
              [createImportProvider providerImportSource outputFormat]
            else [])
           ++ (if (walkList isIdent (analyze (.program b)) providerImportSource
                  ⟨[], false, false⟩ b).1.useMissingComponentHelper then
              [createMissingComponentHelper]
            else [])
           ++ (walkList isIdent (analyze (.program b)) providerImportSource
                ⟨[], false, false⟩ b).2) := by
  simp only [transform, walkNode_program]
  cases h1 : (walkList isIdent (analyze (.program b)) providerImportSource
      ⟨[], false, false⟩ b).1.importProvider <;>
    cases h2 : (walkList isIdent (analyze (.program b)) providerImportSource
      ⟨[], false, false⟩ b).1.useMissingComponentHelper <;>
    simp [h1, h2, unshiftBody]

end Xdm

